import Mathlib

/-!
Verification of the top-sites ranking-and-placement algorithm of
`src/app/browser/api/topSites.js` (the "Top Sites Ranker").

The source operates on Immutable.js records whose fields may be absent;
records are modelled as a structure with `Option` fields.  The external
collaborators (history store, pin store, ignore store, bookmark index, URL
parser, static catalog) live outside `src/` and are modelled from the
spec's interface shapes (§6) as parameters gathered in an `Env` structure.
The module-level mutable watermarks `minCountOfTopSites` /
`minAccessOfTopSites` are modelled by explicit state passing: each
recomputation takes the pair of optional watermarks and returns the
updated pair.

Immutable.js `sort` with a user comparator is modelled as a stable
insertion sort (`List.insertionSort` with the non-strict relation
"comparator result is not `gt`", which places an earlier element before
any tie), matching the spec's stability requirement and JavaScript's
stable `Array.prototype.sort`.
-/

namespace TopSites

/-- A visited-site record (Immutable.js map in the source); every field the
algorithm reads may be absent in the source, hence the `Option` fields.
`bookmarked` is only ever written by the pipeline itself (default false). -/
structure Site where
  location : Option String := none
  count : Option Nat := none
  lastAccessedTime : Option Nat := none
  key : Option String := none
  bookmarked : Bool := false
deriving DecidableEq, Repr

/-- Modelled from the spec: the external collaborator interfaces of §6.
`history` is HistorySource's `getSites` result, a mapping key → SiteRecord
(association list in iteration order); `pinned` is PinStore's ordered
sequence of `SiteRecord | null`; `ignored` is IgnoreStore's key set;
`staticData` is the curated StaticCatalog; `isSourceAboutUrl` is the
internal-URL test from `appUrlUtil`; `bookmarkedAt` is BookmarkIndex's
`getCacheKey(state, location).get(0, false)`; `parseHost` is UrlParser's
`parse(location).hostname`, with `none` for a thrown ParseError. -/
structure Env where
  history : List (String × Site)
  pinned : List (Option Site)
  ignored : List String
  staticData : List Site
  isSourceAboutUrl : Option String → Bool
  bookmarkedAt : Option String → Bool
  parseHost : String → Option String

/-- Source constant `aboutNewTabMaxEntries` (line 16). -/
def aboutNewTabMaxEntries : Nat := 100

/-- `isPinned` (source lines 22-29): some pinned site's `key` field equals
`siteKey` (null pins are skipped; JS `===` on two `undefined`s is true,
matched by `Option` equality). -/
def isPinned (pinned : List (Option Site)) (siteKey : Option String) : Bool :=
  pinned.any fun site =>
    match site with
    | none => false
    | some s => s.key == siteKey

/-- `isIgnored` (source lines 31-33): the ignored key list contains
`siteKey` (a JS `includes(undefined)` over a list of strings is false). -/
def isIgnored (ignored : List String) (siteKey : Option String) : Bool :=
  match siteKey with
  | none => false
  | some k => ignored.contains k

/-- JavaScript `<` on two number-or-undefined values: any comparison
involving `undefined` is false. -/
def jsLtOpt : Option Nat → Option Nat → Bool
  | some a, some b => decide (a < b)
  | _, _ => false

/-- `sortCountDescending` (source lines 35-51).  `count` is read with an
explicit default of 0; `lastAccessedTime` is read without a default, so an
absent value makes both `<` comparisons false (JS `undefined` semantics).
JS return values 1 / -1 / 0 are `Ordering.gt` / `.lt` / `.eq`. -/
def sortCountDescending (left right : Site) : Ordering :=
  if left.count.getD 0 < right.count.getD 0 then .gt
  else if right.count.getD 0 < left.count.getD 0 then .lt
  else if jsLtOpt left.lastAccessedTime right.lastAccessedTime then .gt
  else if jsLtOpt right.lastAccessedTime left.lastAccessedTime then .lt
  else .eq

/-- The non-strict "sorts no later than" relation induced by the source
comparator on (history key, record) pairs: a stable sort keeps `a` before
`b` exactly when the comparator does not order `a` strictly after `b`. -/
def rankRel (a b : String × Site) : Prop :=
  sortCountDescending a.2 b.2 ≠ Ordering.gt

instance : DecidableRel rankRel := fun a b => by
  unfold rankRel; infer_instance

/-- The candidate-filter predicate (source lines 90-95), applied to every
(history key, record) entry. -/
def siteFilter (env : Env) (w : Option Nat × Option Nat) (key : String) (site : Site) : Bool :=
  !env.isSourceAboutUrl site.location &&
  !isPinned env.pinned (some key) &&
  !isIgnored env.ignored (some key) &&
  (match w.1 with
   | none => true
   | some m => decide (m ≤ site.count.getD 0)) &&
  (match w.2 with
   | none => true
   | some m => decide (m ≤ site.lastAccessedTime.getD 0))

/-- Stage 1 (source lines 89-95): filter the history mapping. -/
def filteredSites (env : Env) (w : Option Nat × Option Nat) : List (String × Site) :=
  env.history.filter fun p => siteFilter env w p.1 p.2

/-- Stage 2 (source line 96): stable sort by `sortCountDescending`. -/
def sortedSites (env : Env) (w : Option Nat × Option Nat) : List (String × Site) :=
  List.insertionSort rankRel (filteredSites env w)

/-- Stage 3 (source line 97): truncate to `aboutNewTabMaxEntries`. -/
def truncatedSites (env : Env) (w : Option Nat × Option Nat) : List (String × Site) :=
  (sortedSites env w).take aboutNewTabMaxEntries

/-- Stage 4 (source lines 98-104): attach the `bookmarked` flag and set the
record's `key` field to the mapping key the Immutable `map` callback
receives, then `toList()`. -/
def rankedSites (env : Env) (w : Option Nat × Option Nat) : List Site :=
  (truncatedSites env w).map fun p =>
    { p.2 with bookmarked := env.bookmarkedAt p.2.location, key := some p.1 }

/-- One step of the watermark loop body (source lines 109-114): lower the
optional watermark to `v` when unset or when `v` is smaller. -/
def updateMin (w : Option Nat) (v : Nat) : Option Nat :=
  match w with
  | none => some v
  | some m => if v < m then some v else some m

/-- The watermark loop (source lines 106-117): fold over the ranked,
truncated list, updating both watermarks from `count` / `lastAccessedTime`
(each read with default 0). -/
def newWatermarks (env : Env) (w : Option Nat × Option Nat) : Option Nat × Option Nat :=
  (rankedSites env w).foldl
    (fun acc s => (updateMin acc.1 (s.count.getD 0), updateMin acc.2 (s.lastAccessedTime.getD 0)))
    w

/-- JS truthiness of the `location` field: absent and empty string are falsy. -/
def truthyLoc (s : Site) : Bool :=
  match s.location with
  | none => false
  | some l => !(l == "")

/-- The per-record decision of `removeDuplicateDomains` (source lines
54-68): `some h` when the record is kept with new hostname `h`, `none`
when it is dropped (falsy location — dropped before parsing is attempted;
parse failure, thrown in the source; or already-seen hostname). -/
def dedupStep (parse : String → Option String) (seen : List String) (s : Site) :
    Option String :=
  match s.location with
  | none => none
  | some loc =>
    if loc = "" then none
    else
      match parse loc with
      | none => none
      | some h => if h ∈ seen then none else some h

/-- The body of `removeDuplicateDomains` (source lines 53-70) with the
mutable `siteDomains` set made an explicit accumulator: a record kept by
`dedupStep` adds its hostname to the seen set. -/
def removeDuplicateDomainsAux (parse : String → Option String) :
    List String → List Site → List Site
  | _, [] => []
  | seen, s :: rest =>
    match dedupStep parse seen s with
    | none => removeDuplicateDomainsAux parse seen rest
    | some h => s :: removeDuplicateDomainsAux parse (h :: seen) rest

/-- `removeDuplicateDomains` (source lines 53-70). -/
def removeDuplicateDomains (parse : String → Option String) (l : List Site) : List Site :=
  removeDuplicateDomainsAux parse [] l

/-- Stage 5 (source line 120): deduplicate the ranked list by hostname. -/
def dedupedSites (env : Env) (w : Option Nat × Option Nat) : List Site :=
  removeDuplicateDomains env.parseHost (rankedSites env w)

/-- The processed static catalog (source lines 123-132): drop pinned and
ignored entries, attach the bookmark flag. -/
def preDefinedSites (env : Env) : List Site :=
  (env.staticData.filter fun s => !isPinned env.pinned s.key && !isIgnored env.ignored s.key).map
    fun s => { s with bookmarked := env.bookmarkedAt s.location }

/-- Stages 5-6 (source lines 122-133): pad with the static catalog when the
deduplicated list is shorter than 18. -/
def candidateSites (env : Env) (w : Option Nat × Option Nat) : List Site :=
  let d := dedupedSites env w
  if d.length < 18 then d ++ preDefinedSites env else d

/-- The Grid Composer loop (source lines 135-151): map over the pinned
sequence threading the working candidate list.  A non-null pin first
removes every candidate with an equal `key`, then fills its slot; a null
pin pops the first remaining candidate (`first()` of an empty Immutable
list is `undefined`, `shift()` of an empty list is empty).  Returns the
slot sequence (with `none` for an `undefined` slot) and the final working
list. -/
def composeAux : List Site → List (Option Site) → List (Option Site) × List Site
  | sites, [] => ([], sites)
  | sites, none :: rest =>
    let r := composeAux sites.tail rest
    (sites.head? :: r.1, r.2)
  | sites, some p :: rest =>
    let r := composeAux (sites.filter fun s => s.key != p.key) rest
    (some p :: r.1, r.2)

/-- The composed grid before empty slots are dropped. -/
def composeGrid (sites : List Site) (pins : List (Option Site)) : List (Option Site) :=
  (composeAux sites pins).1

/-- The working candidate list after the first `k` grid slots have been
processed. -/
def composeRemaining (sites : List Site) (pins : List (Option Site)) (k : Nat) : List Site :=
  (composeAux sites (pins.take k)).2

/-- The pre-drop grid of a full recomputation. -/
def preGrid (env : Env) (w : Option Nat × Option Nat) : List (Option Site) :=
  composeGrid (candidateSites env w) env.pinned

/-- The emitted grid (source line 153): drop the null/undefined slots. -/
def topSiteGrid (env : Env) (w : Option Nat × Option Nat) : List Site :=
  (preGrid env w).filterMap id

/-- One full run of `getTopSiteData`: the grid handed to
`topSiteDataAvailable`, and the watermark pair left in module state. -/
def getTopSiteData (env : Env) (w : Option Nat × Option Nat) :
    List Site × (Option Nat × Option Nat) :=
  (topSiteGrid env w, newWatermarks env w)

/-- `clearTopSiteCacheData` (source lines 161-164). -/
def clearTopSiteCacheData : Option Nat × Option Nat := (none, none)

/-! ### Grid Composer lemmas -/

theorem composeAux_fst_length (sites : List Site) (pins : List (Option Site)) :
    (composeAux sites pins).1.length = pins.length := by
  induction pins generalizing sites with
  | nil => rfl
  | cons o rest ih => cases o <;> simp [composeAux, ih]

theorem composeAux_append (sites : List Site) (l1 l2 : List (Option Site)) :
    composeAux sites (l1 ++ l2) =
      ((composeAux sites l1).1 ++ (composeAux (composeAux sites l1).2 l2).1,
        (composeAux (composeAux sites l1).2 l2).2) := by
  induction l1 generalizing sites with
  | nil => simp [composeAux]
  | cons o rest ih => cases o <;> simp [composeAux, ih]

theorem composeRemaining_zero (sites : List Site) (pins : List (Option Site)) :
    composeRemaining sites pins 0 = sites := rfl

theorem composeRemaining_take_eq (sites : List Site) (pins : List (Option Site)) (k : Nat)
    (o : Option Site) (h : pins[k]? = some o) :
    composeRemaining sites pins (k + 1) =
      (composeAux (composeRemaining sites pins k) [o]).2 := by
  have hstep : pins.take (k + 1) = pins.take k ++ [o] := by
    rw [List.take_succ, h]; rfl
  simp only [composeRemaining, hstep, composeAux_append]

theorem composeRemaining_succ_some (sites : List Site) (pins : List (Option Site)) (k : Nat)
    (p : Site) (h : pins[k]? = some (some p)) :
    composeRemaining sites pins (k + 1) =
      (composeRemaining sites pins k).filter fun s => s.key != p.key := by
  rw [composeRemaining_take_eq sites pins k (some p) h]
  simp [composeAux]

theorem composeRemaining_succ_sublist (sites : List Site) (pins : List (Option Site)) (k : Nat) :
    (composeRemaining sites pins (k + 1)).Sublist (composeRemaining sites pins k) := by
  cases h : pins[k]? with
  | none =>
    have hk : pins.length ≤ k := by
      rcases Nat.lt_or_ge k pins.length with h' | h'
      · rw [List.getElem?_eq_getElem h'] at h; cases h
      · exact h'
    simp only [composeRemaining]
    rw [List.take_of_length_le hk, List.take_of_length_le (Nat.le_succ_of_le hk)]
  | some o =>
    rw [composeRemaining_take_eq sites pins k o h]
    cases o with
    | none =>
      simp only [composeAux]
      exact List.tail_sublist _
    | some p =>
      simp only [composeAux]
      exact List.filter_sublist _

theorem composeRemaining_sublist_of_le (sites : List Site) (pins : List (Option Site))
    {k k' : Nat} (h : k ≤ k') :
    (composeRemaining sites pins k').Sublist (composeRemaining sites pins k) := by
  induction k' with
  | zero => cases Nat.le_zero.mp h; exact List.Sublist.refl _
  | succ n ih =>
    rcases Nat.lt_or_ge k (n + 1) with hlt | hge
    · exact (composeRemaining_succ_sublist sites pins n).trans (ih (Nat.lt_succ_iff.mp hlt))
    · cases Nat.le_antisymm h hge; exact List.Sublist.refl _

theorem composeGrid_append_get (sites : List Site) (l1 : List (Option Site)) (o : Option Site)
    (l2 : List (Option Site)) :
    (composeGrid sites (l1 ++ o :: l2))[l1.length]? =
      some (match o with
            | some p => some p
            | none => ((composeAux sites l1).2).head?) := by
  rw [composeGrid, composeAux_append]
  rw [List.getElem?_append_right (by rw [composeAux_fst_length])]
  rw [composeAux_fst_length, Nat.sub_self]
  cases o <;> simp [composeAux]

theorem composeGrid_append_get_of_len (sites : List Site) (l1 : List (Option Site))
    (o : Option Site) (l2 : List (Option Site)) (i : Nat) (hlen : l1.length = i) :
    (composeGrid sites (l1 ++ o :: l2))[i]? =
      some (match o with
            | some p => some p
            | none => ((composeAux sites l1).2).head?) := by
  subst hlen
  exact composeGrid_append_get sites l1 o l2

theorem pins_split (pins : List (Option Site)) (i : Nat) (o : Option Site)
    (h : pins[i]? = some o) :
    pins = pins.take i ++ o :: pins.drop (i + 1) ∧ (pins.take i).length = i := by
  have hi : i < pins.length := by
    rcases Nat.lt_or_ge i pins.length with h' | h'
    · exact h'
    · rw [List.getElem?_eq_none h'] at h; cases h
  constructor
  · conv_lhs => rw [← List.take_append_drop i pins]
    congr 1
    rw [List.drop_eq_getElem_cons hi]
    congr 1
    have := List.getElem?_eq_getElem hi
    rw [h] at this
    exact (Option.some_inj.mp this.symm)
  · simp [List.length_take, Nat.min_eq_left (Nat.le_of_lt hi)]

theorem composeGrid_get_pin (sites : List Site) (pins : List (Option Site)) (i : Nat)
    (p : Site) (h : pins[i]? = some (some p)) :
    (composeGrid sites pins)[i]? = some (some p) := by
  obtain ⟨hsplit, hlen⟩ := pins_split pins i (some p) h
  conv_lhs => rw [hsplit]
  rw [composeGrid_append_get_of_len sites _ _ _ i hlen]

theorem composeGrid_get_null (sites : List Site) (pins : List (Option Site)) (i : Nat)
    (h : pins[i]? = some none) :
    (composeGrid sites pins)[i]? = some ((composeRemaining sites pins i).head?) := by
  obtain ⟨hsplit, hlen⟩ := pins_split pins i none h
  conv_lhs => rw [hsplit]
  rw [composeGrid_append_get_of_len sites _ _ _ i hlen]
  rw [composeRemaining]

/-- C1 — Grid Composer pin priority (source lines 135-151): a non-null pin
at index `i` occupies slot `i` of the pre-drop grid, and every candidate
with the pin's key is removed from the working list before any later slot
is filled; a null pin receives the head of the working list (empty slot
when exhausted). -/
theorem c1_grid_composer_pin_priority (sites : List Site) (pins : List (Option Site)) :
    (∀ i p, pins[i]? = some (some p) →
      (composeGrid sites pins)[i]? = some (some p) ∧
      ∀ k, i < k → ∀ s ∈ composeRemaining sites pins k, s.key ≠ p.key) ∧
    (∀ i, pins[i]? = some none →
      (composeGrid sites pins)[i]? = some ((composeRemaining sites pins i).head?)) := by
  constructor
  · intro i p h
    refine ⟨composeGrid_get_pin sites pins i p h, ?_⟩
    intro k hk s hs
    have hstep : composeRemaining sites pins (i + 1) =
        (composeRemaining sites pins i).filter fun s => s.key != p.key :=
      composeRemaining_succ_some sites pins i p h
    have hsub : (composeRemaining sites pins k).Sublist (composeRemaining sites pins (i + 1)) :=
      composeRemaining_sublist_of_le sites pins hk
    have hmem : s ∈ composeRemaining sites pins (i + 1) := hsub.mem hs
    rw [hstep] at hmem
    have := List.of_mem_filter hmem
    simpa using this
  · intro i h
    exact composeGrid_get_null sites pins i h

/-- Concrete record used by witnesses: a plain visited site. -/
def siteA : Site :=
  { location := some "https://aaa.example/", count := some 5, lastAccessedTime := some 10 }

/-- Concrete record used by witnesses: a pinned entry with key "kb". -/
def pinB : Site := { location := some "https://bbb.example/", key := some "kb" }

/-- Concrete record used by witnesses: a ranked candidate with key "ka". -/
def candA : Site := { location := some "https://aaa.example/", key := some "ka" }

/-- Concrete environment used by witnesses: one history entry, no pins. -/
def envNoPins : Env :=
  { history := [("ka", siteA)], pinned := [], ignored := [], staticData := [siteA],
    isSourceAboutUrl := fun _ => false, bookmarkedAt := fun _ => false,
    parseHost := fun l => some l }

theorem c1_witness : (composeGrid [candA] [some pinB])[0]? = some (some pinB) :=
  ((c1_grid_composer_pin_priority [candA] [some pinB]).1 0 pinB rfl).1

/-- C9 — the emitted grid never has more slots than the pinned sequence
(source lines 135-153: the grid is a map over the pinned sequence followed
by a filter); with no pin slots the grid is empty no matter how rich the
history or catalog are. -/
theorem c9_grid_length_bounded (env : Env) (w : Option Nat × Option Nat) :
    (topSiteGrid env w).length ≤ env.pinned.length ∧
    (env.pinned = [] → topSiteGrid env w = []) := by
  constructor
  · calc (topSiteGrid env w).length ≤ (preGrid env w).length :=
          List.length_filterMap_le id _
      _ = env.pinned.length := composeAux_fst_length _ _
  · intro h
    simp [topSiteGrid, preGrid, composeGrid, h, composeAux]

theorem c9_witness : topSiteGrid envNoPins (none, none) = [] :=
  (c9_grid_length_bounded envNoPins (none, none)).2 rfl

/-! ### Candidate Filter -/

theorem isPinned_eq_false_iff (pinned : List (Option Site)) (k : Option String) :
    isPinned pinned k = false ↔ ∀ p, some p ∈ pinned → p.key ≠ k := by
  simp only [isPinned, List.any_eq_false]
  constructor
  · intro h p hp
    have := h (some p) hp
    simpa using this
  · intro h o ho
    cases o with
    | none => simp
    | some p => simpa using h p ho

theorem isIgnored_some_eq_false_iff (ignored : List String) (k : String) :
    isIgnored ignored (some k) = false ↔ k ∉ ignored := by
  simp [isIgnored]

theorem siteFilter_eq_true_iff (env : Env) (w : Option Nat × Option Nat) (k : String) (s : Site) :
    siteFilter env w k s = true ↔
      (env.isSourceAboutUrl s.location = false ∧
       (∀ p, some p ∈ env.pinned → p.key ≠ some k) ∧
       k ∉ env.ignored ∧
       (∀ m, w.1 = some m → m ≤ s.count.getD 0) ∧
       (∀ m, w.2 = some m → m ≤ s.lastAccessedTime.getD 0)) := by
  obtain ⟨w1, w2⟩ := w
  unfold siteFilter
  cases w1 <;> cases w2 <;>
    simp [Bool.and_eq_true, Bool.not_eq_true', isPinned_eq_false_iff,
      isIgnored_some_eq_false_iff, and_assoc]

/-- C4 — Candidate Filter membership (source lines 89-95, 22-33): a history
entry is retained exactly when its location is not a source-about URL, its
history key is not among the pinned entries' keys, it is not ignored, and
its count / lastAccessedTime (0 when absent) clear the respective
watermark whenever that watermark is set.  The embedding is a pure
function of its inputs, so the filter has no side effects. -/
theorem c4_candidate_filter (env : Env) (w : Option Nat × Option Nat) (k : String) (s : Site) :
    (k, s) ∈ filteredSites env w ↔
      ((k, s) ∈ env.history ∧
       env.isSourceAboutUrl s.location = false ∧
       (∀ p, some p ∈ env.pinned → p.key ≠ some k) ∧
       k ∉ env.ignored ∧
       (∀ m, w.1 = some m → m ≤ s.count.getD 0) ∧
       (∀ m, w.2 = some m → m ≤ s.lastAccessedTime.getD 0)) := by
  rw [filteredSites, List.mem_filter]
  exact and_congr Iff.rfl (siteFilter_eq_true_iff env w k s)

theorem c4_witness : ("ka", siteA) ∈ filteredSites envNoPins (none, none) := by
  refine (c4_candidate_filter envNoPins (none, none) "ka" siteA).mpr ⟨?_, rfl, ?_, ?_, ?_, ?_⟩
  · simp [envNoPins]
  · intro p hp
    simp [envNoPins] at hp
  · simp [envNoPins]
  · intro m hm
    cases hm
  · intro m hm
    cases hm

/-! ### Threshold-cache watermarks -/

/-- Decompose every ranked site into its originating filtered entry. -/
theorem rankedSites_shape (env : Env) (w : Option Nat × Option Nat) :
    ∀ s ∈ rankedSites env w, ∃ k r,
      s = { r with bookmarked := env.bookmarkedAt r.location, key := some k } ∧
      (k, r) ∈ filteredSites env w := by
  intro s hs
  rw [rankedSites] at hs
  obtain ⟨p, hp, h⟩ := List.mem_map.mp hs
  refine ⟨p.1, p.2, h.symm, ?_⟩
  have h2 : p ∈ sortedSites env w := (List.take_sublist _ _).mem hp
  exact ((List.perm_insertionSort rankRel _).mem_iff).mp h2

theorem newWatermarks_split (env : Env) (w : Option Nat × Option Nat) :
    newWatermarks env w =
      (((rankedSites env w).map fun s => s.count.getD 0).foldl updateMin w.1,
       ((rankedSites env w).map fun s => s.lastAccessedTime.getD 0).foldl updateMin w.2) := by
  rw [newWatermarks]
  generalize rankedSites env w = l
  induction l generalizing w with
  | nil => rfl
  | cons x xs ih =>
    simp only [List.foldl_cons, List.map_cons]
    exact ih (updateMin w.1 (x.count.getD 0), updateMin w.2 (x.lastAccessedTime.getD 0))

/-- The spec's description of the watermark update (§3/§4.2): the minimum
of the previous value (treated as plus-infinity when unset) and the values
observed among the retained, truncated candidate pool. -/
def specMin (w : Option Nat) (l : List Nat) : Option Nat :=
  match w, l with
  | some m, _ => some (l.foldr min m)
  | none, [] => none
  | none, x :: xs => some (xs.foldr min x)

theorem foldr_min_min (a b : Nat) (l : List Nat) :
    l.foldr min (min a b) = min a (l.foldr min b) := by
  induction l with
  | nil => rfl
  | cons y ys ih =>
    simp only [List.foldr_cons, ih]
    exact min_left_comm y a (ys.foldr min b)

theorem updateMin_eq_min (m v : Nat) : updateMin (some m) v = some (min v m) := by
  show (if v < m then some v else some m) = some (min v m)
  rcases Nat.lt_or_ge v m with h | h
  · rw [if_pos h, Nat.min_eq_left (Nat.le_of_lt h)]
  · rw [if_neg (Nat.not_lt.mpr h), Nat.min_eq_right h]

theorem foldl_updateMin_eq_specMin (w : Option Nat) (l : List Nat) :
    l.foldl updateMin w = specMin w l := by
  induction l generalizing w with
  | nil => cases w <;> rfl
  | cons x xs ih =>
    rw [List.foldl_cons, ih]
    cases w with
    | none => rfl
    | some m =>
      rw [updateMin_eq_min]
      show some (xs.foldr min (min x m)) = specMin (some m) (x :: xs)
      show some (xs.foldr min (min x m)) = some ((x :: xs).foldr min m)
      rw [List.foldr_cons, foldr_min_min]

theorem foldl_updateMin_of_ge (m : Nat) (l : List Nat) (h : ∀ v ∈ l, m ≤ v) :
    l.foldl updateMin (some m) = some m := by
  induction l with
  | nil => rfl
  | cons x xs ih =>
    rw [List.foldl_cons]
    have hx : updateMin (some m) x = some m := by
      rw [updateMin_eq_min, Nat.min_eq_right (h x (List.mem_cons_self _ _))]
    rw [hx]
    exact ih fun v hv => h v (List.mem_cons_of_mem _ hv)

/-- Every retained, truncated candidate clears the set count watermark. -/
theorem rankedSites_count_ge (env : Env) (w : Option Nat × Option Nat) (m : Nat)
    (h : w.1 = some m) : ∀ s ∈ rankedSites env w, m ≤ s.count.getD 0 := by
  intro s hs
  obtain ⟨k, r, rfl, hmem⟩ := rankedSites_shape env w s hs
  have hf := (siteFilter_eq_true_iff env w k r).mp (List.mem_filter.mp hmem).2
  exact hf.2.2.2.1 m h

/-- Every retained, truncated candidate clears the set access watermark. -/
theorem rankedSites_access_ge (env : Env) (w : Option Nat × Option Nat) (m : Nat)
    (h : w.2 = some m) : ∀ s ∈ rankedSites env w, m ≤ s.lastAccessedTime.getD 0 := by
  intro s hs
  obtain ⟨k, r, rfl, hmem⟩ := rankedSites_shape env w s hs
  have hf := (siteFilter_eq_true_iff env w k r).mp (List.mem_filter.mp hmem).2
  exact hf.2.2.2.2 m h

/-- C2 — Monotone watermark (source lines 93-94 and 106-117): after every
run each watermark equals the minimum of its previous value (plus-infinity
when unset) and the counts / access times (0 when absent) observed among
the retained, truncated pool; consequently, across two consecutive runs
with no intervening clear, a set watermark never decreases. -/
theorem c2_monotone_watermark :
    (∀ env w, newWatermarks env w =
        (specMin w.1 ((rankedSites env w).map fun s => s.count.getD 0),
         specMin w.2 ((rankedSites env w).map fun s => s.lastAccessedTime.getD 0))) ∧
    (∀ env1 env2 w m, (newWatermarks env1 w).1 = some m →
        ∃ m', (newWatermarks env2 (newWatermarks env1 w)).1 = some m' ∧ m ≤ m') ∧
    (∀ env1 env2 w m, (newWatermarks env1 w).2 = some m →
        ∃ m', (newWatermarks env2 (newWatermarks env1 w)).2 = some m' ∧ m ≤ m') := by
  refine ⟨?_, ?_, ?_⟩
  · intro env w
    rw [newWatermarks_split, foldl_updateMin_eq_specMin, foldl_updateMin_eq_specMin]
  · intro env1 env2 w m h
    refine ⟨m, ?_, Nat.le_refl m⟩
    rw [newWatermarks_split, h]
    exact foldl_updateMin_of_ge m _ fun v hv => by
      obtain ⟨s, hs, rfl⟩ := List.mem_map.mp hv
      exact rankedSites_count_ge env2 (newWatermarks env1 w) m h s hs
  · intro env1 env2 w m h
    refine ⟨m, ?_, Nat.le_refl m⟩
    rw [newWatermarks_split, h]
    exact foldl_updateMin_of_ge m _ fun v hv => by
      obtain ⟨s, hs, rfl⟩ := List.mem_map.mp hv
      exact rankedSites_access_ge env2 (newWatermarks env1 w) m h s hs

theorem c2_witness :
    ∃ m', (newWatermarks envNoPins (newWatermarks envNoPins (none, none))).1 = some m' ∧
      5 ≤ m' :=
  c2_monotone_watermark.2.1 envNoPins envNoPins (none, none) 5 (by decide)

/-! ### Domain Deduplicator -/

/-- "Record `s` has a location that parses to hostname `h`." -/
def parsesTo (parse : String → Option String) (s : Site) (h : String) : Prop :=
  ∃ loc, s.location = some loc ∧ parse loc = some h

theorem parsesTo_unique (parse : String → Option String) (s : Site) (h h' : String)
    (h1 : parsesTo parse s h) (h2 : parsesTo parse s h') : h = h' := by
  obtain ⟨loc, hl, hph⟩ := h1
  obtain ⟨loc', hl', hph'⟩ := h2
  rw [hl] at hl'
  cases Option.some_inj.mp hl'
  rw [hph] at hph'
  exact Option.some_inj.mp hph'

theorem removeDuplicateDomainsAux_cons_none (parse : String → Option String)
    (seen : List String) (x : Site) (rest : List Site)
    (h : dedupStep parse seen x = none) :
    removeDuplicateDomainsAux parse seen (x :: rest) =
      removeDuplicateDomainsAux parse seen rest := by
  simp [removeDuplicateDomainsAux, h]

theorem removeDuplicateDomainsAux_cons_some (parse : String → Option String)
    (seen : List String) (x : Site) (rest : List Site) (hx : String)
    (h : dedupStep parse seen x = some hx) :
    removeDuplicateDomainsAux parse seen (x :: rest) =
      x :: removeDuplicateDomainsAux parse (hx :: seen) rest := by
  simp [removeDuplicateDomainsAux, h]

theorem dedupStep_some (parse : String → Option String) (seen : List String) (x : Site)
    (hx : String) (h : dedupStep parse seen x = some hx) :
    ∃ loc, x.location = some loc ∧ loc ≠ "" ∧ parse loc = some hx ∧ hx ∉ seen := by
  unfold dedupStep at h
  split at h
  · exact absurd h (by simp)
  rename_i loc hl
  split at h
  · exact absurd h (by simp)
  rename_i he
  split at h
  · exact absurd h (by simp)
  rename_i hv hpl
  split at h
  · exact absurd h (by simp)
  rename_i hs
  cases h
  exact ⟨loc, hl, he, hpl, hs⟩

theorem dedupStep_some_of (parse : String → Option String) (seen : List String) (x : Site)
    (loc hx : String) (hl : x.location = some loc) (he : loc ≠ "")
    (hpl : parse loc = some hx) (hs : hx ∉ seen) :
    dedupStep parse seen x = some hx := by
  simp [dedupStep, hl, he, hpl, hs]

theorem dedupStep_none_iff (parse : String → Option String) (hp : parse "" = none)
    (seen : List String) (x : Site) :
    dedupStep parse seen x = none ↔ ∀ h, parsesTo parse x h → h ∈ seen := by
  constructor
  · rintro h0 h ⟨loc, hl, hpl⟩
    by_contra hns
    have hne : loc ≠ "" := by
      intro he
      rw [he, hp] at hpl
      cases hpl
    have := dedupStep_some_of parse seen x loc h hl hne hpl hns
    rw [h0] at this
    cases this
  · intro hall
    cases hd : dedupStep parse seen x with
    | none => rfl
    | some hx =>
      obtain ⟨loc, hl, _, hpl, hs⟩ := dedupStep_some parse seen x hx hd
      exact absurd (hall hx ⟨loc, hl, hpl⟩) hs

theorem dedupStep_some_truthy (parse : String → Option String) (seen : List String)
    (x : Site) (hx : String) (h : dedupStep parse seen x = some hx) :
    truthyLoc x = true := by
  obtain ⟨loc, hl, he, _, _⟩ := dedupStep_some parse seen x hx h
  simp [truthyLoc, hl, he]

theorem dedupStep_congr (p1 p2 : String → Option String)
    (hagree : ∀ loc, loc ≠ "" → p1 loc = p2 loc) (seen : List String) (x : Site) :
    dedupStep p1 seen x = dedupStep p2 seen x := by
  unfold dedupStep
  cases x.location with
  | none => rfl
  | some loc =>
    by_cases he : loc = ""
    · simp [he]
    · simp only [if_neg he]
      rw [hagree loc he]

theorem removeDuplicateDomainsAux_sublist (parse : String → Option String)
    (seen : List String) (l : List Site) :
    (removeDuplicateDomainsAux parse seen l).Sublist l := by
  induction l generalizing seen with
  | nil => exact List.Sublist.refl _
  | cons x rest ih =>
    cases hd : dedupStep parse seen x with
    | none =>
      rw [removeDuplicateDomainsAux_cons_none parse seen x rest hd]
      exact (ih seen).cons x
    | some hx =>
      rw [removeDuplicateDomainsAux_cons_some parse seen x rest hx hd]
      exact (ih (hx :: seen)).cons₂ x

theorem removeDuplicateDomainsAux_truthy (parse : String → Option String)
    (seen : List String) (l : List Site) :
    ∀ s ∈ removeDuplicateDomainsAux parse seen l, truthyLoc s = true := by
  induction l generalizing seen with
  | nil => intro s hs; cases hs
  | cons x rest ih =>
    intro s hs
    cases hd : dedupStep parse seen x with
    | none =>
      rw [removeDuplicateDomainsAux_cons_none parse seen x rest hd] at hs
      exact ih seen s hs
    | some hx =>
      rw [removeDuplicateDomainsAux_cons_some parse seen x rest hx hd] at hs
      rcases List.mem_cons.mp hs with rfl | hs'
      · exact dedupStep_some_truthy parse seen s hx hd
      · exact ih (hx :: seen) s hs'

theorem removeDuplicateDomainsAux_congr (p1 p2 : String → Option String)
    (hagree : ∀ loc, loc ≠ "" → p1 loc = p2 loc) (seen : List String) (l : List Site) :
    removeDuplicateDomainsAux p1 seen l = removeDuplicateDomainsAux p2 seen l := by
  induction l generalizing seen with
  | nil => rfl
  | cons x rest ih =>
    have hstep := dedupStep_congr p1 p2 hagree seen x
    cases hd : dedupStep p2 seen x with
    | none =>
      rw [removeDuplicateDomainsAux_cons_none p1 seen x rest (hstep.trans hd),
        removeDuplicateDomainsAux_cons_none p2 seen x rest hd]
      exact ih seen
    | some hx =>
      rw [removeDuplicateDomainsAux_cons_some p1 seen x rest hx (hstep.trans hd),
        removeDuplicateDomainsAux_cons_some p2 seen x rest hx hd, ih (hx :: seen)]

theorem mem_removeDuplicateDomainsAux_iff (parse : String → Option String)
    (hp : parse "" = none) (l : List Site) (seen : List String) (s : Site) :
    s ∈ removeDuplicateDomainsAux parse seen l ↔
      ∃ (i : Nat) (h : String), l[i]? = some s ∧ parsesTo parse s h ∧ h ∉ seen ∧
        ∀ j, j < i → ∀ t, l[j]? = some t → ¬ parsesTo parse t h := by
  induction l generalizing seen with
  | nil => simp [removeDuplicateDomainsAux]
  | cons x rest ih =>
    cases hd : dedupStep parse seen x with
    | none =>
      rw [removeDuplicateDomainsAux_cons_none parse seen x rest hd, ih seen]
      have hblock0 : ∀ h, h ∉ seen → ¬ parsesTo parse x h := fun h hns hpt =>
        hns ((dedupStep_none_iff parse hp seen x).mp hd h hpt)
      constructor
      · rintro ⟨i, h, hi, hpt, hns, hb⟩
        refine ⟨i + 1, h, by simpa using hi, hpt, hns, ?_⟩
        intro j hj t ht
        cases j with
        | zero =>
          rw [List.getElem?_cons_zero] at ht
          cases Option.some_inj.mp ht
          exact hblock0 h hns
        | succ j' =>
          rw [List.getElem?_cons_succ] at ht
          exact hb j' (Nat.lt_of_succ_lt_succ hj) t ht
      · rintro ⟨i, h, hi, hpt, hns, hb⟩
        cases i with
        | zero =>
          rw [List.getElem?_cons_zero] at hi
          cases Option.some_inj.mp hi
          exact absurd hpt (hblock0 h hns)
        | succ i' =>
          rw [List.getElem?_cons_succ] at hi
          exact ⟨i', h, hi, hpt, hns, fun j hj t ht =>
            hb (j + 1) (Nat.succ_lt_succ hj) t (by simpa using ht)⟩
    | some hx =>
      obtain ⟨loc, hl, he, hpl, hxs⟩ := dedupStep_some parse seen x hx hd
      have hxparses : parsesTo parse x hx := ⟨loc, hl, hpl⟩
      have hxonly : ∀ h, parsesTo parse x h → h = hx := fun h hh =>
        parsesTo_unique parse x h hx hh hxparses
      rw [removeDuplicateDomainsAux_cons_some parse seen x rest hx hd, List.mem_cons,
        ih (hx :: seen)]
      constructor
      · rintro (rfl | ⟨i, h, hi, hpt, hns, hb⟩)
        · exact ⟨0, hx, List.getElem?_cons_zero, hxparses, hxs,
            fun j hj t ht => absurd hj (Nat.not_lt_zero j)⟩
        · have hne : h ≠ hx := fun heq => hns (heq ▸ List.mem_cons_self hx seen)
          have hns' : h ∉ seen := fun hin => hns (List.mem_cons_of_mem hx hin)
          refine ⟨i + 1, h, by simpa using hi, hpt, hns', ?_⟩
          intro j hj t ht
          cases j with
          | zero =>
            rw [List.getElem?_cons_zero] at ht
            cases Option.some_inj.mp ht
            exact fun hxh => hne (hxonly h hxh)
          | succ j' =>
            rw [List.getElem?_cons_succ] at ht
            exact hb j' (Nat.lt_of_succ_lt_succ hj) t ht
      · rintro ⟨i, h, hi, hpt, hns, hb⟩
        cases i with
        | zero =>
          rw [List.getElem?_cons_zero] at hi
          exact Or.inl (Option.some_inj.mp hi).symm
        | succ i' =>
          rw [List.getElem?_cons_succ] at hi
          refine Or.inr ⟨i', h, hi, hpt, ?_, fun j hj t ht =>
            hb (j + 1) (Nat.succ_lt_succ hj) t (by simpa using ht)⟩
          intro hin
          rcases List.mem_cons.mp hin with rfl | hin'
          · exact hb 0 (Nat.succ_pos i') x List.getElem?_cons_zero hxparses
          · exact hns hin'

theorem removeDuplicateDomainsAux_host_not_seen (parse : String → Option String)
    (hp : parse "" = none) (seen : List String) (l : List Site) :
    ∀ s ∈ removeDuplicateDomainsAux parse seen l, ∀ h, parsesTo parse s h → h ∉ seen := by
  intro s hs h hpt
  obtain ⟨i, h', _, hpt', hns, _⟩ :=
    (mem_removeDuplicateDomainsAux_iff parse hp l seen s).mp hs
  cases parsesTo_unique parse s h h' hpt hpt'
  exact hns

theorem removeDuplicateDomainsAux_pairwise (parse : String → Option String)
    (hp : parse "" = none) (seen : List String) (l : List Site) :
    (removeDuplicateDomainsAux parse seen l).Pairwise
      (fun a b => ∀ h, parsesTo parse a h → ¬ parsesTo parse b h) := by
  induction l generalizing seen with
  | nil => exact List.Pairwise.nil
  | cons x rest ih =>
    cases hd : dedupStep parse seen x with
    | none =>
      rw [removeDuplicateDomainsAux_cons_none parse seen x rest hd]
      exact ih seen
    | some hx =>
      obtain ⟨loc, hl, he, hpl, hxs⟩ := dedupStep_some parse seen x hx hd
      rw [removeDuplicateDomainsAux_cons_some parse seen x rest hx hd]
      refine List.Pairwise.cons ?_ (ih (hx :: seen))
      intro b hb h hxh hbh
      have heq : h = hx := parsesTo_unique parse x h hx hxh ⟨loc, hl, hpl⟩
      subst heq
      exact removeDuplicateDomainsAux_host_not_seen parse hp (h :: seen) rest b hb h hbh
        (List.mem_cons_self h seen)

/-- C7 — Domain deduplication (source lines 53-70): the output is a
sublist of the input (order preserved); a record is kept exactly when it
is the first input occurrence whose location parses to its hostname; no
two kept records share a hostname.  Parse failures (a throw in the
source, `none` here) only drop the offending record — the embedding is a
total function, so the error never propagates.  The hypothesis `hp` says
the URL parser rejects the empty string (the source never even parses a
falsy location). -/
theorem c7_remove_duplicate_domains (parse : String → Option String)
    (hp : parse "" = none) (l : List Site) :
    (removeDuplicateDomains parse l).Sublist l ∧
    (∀ s, s ∈ removeDuplicateDomains parse l ↔
      ∃ (i : Nat) (h : String), l[i]? = some s ∧ parsesTo parse s h ∧
        ∀ j, j < i → ∀ t, l[j]? = some t → ¬ parsesTo parse t h) ∧
    (removeDuplicateDomains parse l).Pairwise
      (fun a b => ∀ h, parsesTo parse a h → ¬ parsesTo parse b h) := by
  refine ⟨removeDuplicateDomainsAux_sublist parse [] l, ?_, ?_⟩
  · intro s
    rw [removeDuplicateDomains, mem_removeDuplicateDomainsAux_iff parse hp l [] s]
    simp
  · exact removeDuplicateDomainsAux_pairwise parse hp [] l

/-- A parser used by witnesses: every nonempty string is its own host. -/
def idParse : String → Option String :=
  fun loc => if loc = "" then none else some loc

theorem c7_witness :
    (removeDuplicateDomains idParse [candA, pinB]).Sublist [candA, pinB] :=
  (c7_remove_duplicate_domains idParse rfl [candA, pinB]).1

theorem composeGrid_filterMap_mem (sites : List Site) (pins : List (Option Site)) :
    ∀ x ∈ (composeAux sites pins).1.filterMap id, x ∈ sites ∨ some x ∈ pins := by
  induction pins generalizing sites with
  | nil => intro x hx; cases hx
  | cons o rest ih =>
    intro x hx
    cases o with
    | none =>
      rw [composeAux] at hx
      cases sites with
      | nil =>
        simp only [List.head?_nil, List.filterMap_cons_none] at hx
        rcases ih List.nil.tail x hx with h | h
        · cases h
        · exact Or.inr (List.mem_cons_of_mem none h)
      | cons c cs =>
        simp only [List.head?_cons, List.filterMap_cons_some, List.tail_cons] at hx
        rcases List.mem_cons.mp hx with rfl | hx'
        · exact Or.inl (List.mem_cons_self _ _)
        · rcases ih cs x hx' with h | h
          · exact Or.inl (List.mem_cons_of_mem c h)
          · exact Or.inr (List.mem_cons_of_mem none h)
    | some p =>
      rw [composeAux] at hx
      simp only [List.filterMap_cons_some] at hx
      rcases List.mem_cons.mp hx with rfl | hx'
      · exact Or.inr (List.mem_cons_self _ _)
      · rcases ih _ x hx' with h | h
        · exact Or.inl (List.mem_of_mem_filter h)
        · exact Or.inr (List.mem_cons_of_mem _ h)

/-- C10 — records with an absent or empty location are removed by the
deduplicator before hostname parsing is attempted (source lines 55-58):
every deduplicated record has a truthy location; the deduplicator's result
depends only on the parser's values at nonempty strings; and every emitted
grid entry is a pin, a static-catalog entry, or a record with a truthy
location — so no locationless record reaches the grid via the ranked
path. -/
theorem c10_locationless_dropped :
    (∀ parse l s, s ∈ removeDuplicateDomains parse l → truthyLoc s = true) ∧
    (∀ p1 p2 l, (∀ loc, loc ≠ "" → p1 loc = p2 loc) →
        removeDuplicateDomains p1 l = removeDuplicateDomains p2 l) ∧
    (∀ env w s, s ∈ topSiteGrid env w →
        some s ∈ env.pinned ∨ s ∈ preDefinedSites env ∨ truthyLoc s = true) := by
  refine ⟨?_, ?_, ?_⟩
  · intro parse l s hs
    exact removeDuplicateDomainsAux_truthy parse [] l s hs
  · intro p1 p2 l hagree
    exact removeDuplicateDomainsAux_congr p1 p2 hagree [] l
  · intro env w s hs
    rcases composeGrid_filterMap_mem (candidateSites env w) env.pinned s hs with h | h
    · rw [candidateSites] at h
      by_cases hlen : (dedupedSites env w).length < 18
      · rw [if_pos hlen] at h
        rcases List.mem_append.mp h with h' | h'
        · exact Or.inr (Or.inr (removeDuplicateDomainsAux_truthy _ [] _ s h'))
        · exact Or.inr (Or.inl h')
      · rw [if_neg hlen] at h
        exact Or.inr (Or.inr (removeDuplicateDomainsAux_truthy _ [] _ s h))
    · exact Or.inl h

theorem c10_witness : truthyLoc candA = true :=
  c10_locationless_dropped.1 idParse [candA] candA (by decide)

/-! ### Ranker order -/

/-- The ranking order described by the spec (§4.2): strictly more visits
first; on equal counts, the more recently accessed record first, with an
absent `count` or `lastAccessedTime` reading as 0 (§3, §7). -/
def specRankLe (l r : Site) : Prop :=
  r.count.getD 0 < l.count.getD 0 ∨
    (l.count.getD 0 = r.count.getD 0 ∧ r.lastAccessedTime.getD 0 ≤ l.lastAccessedTime.getD 0)

/-- The spec's ranking order lifted to (history key, record) pairs. -/
def specRankRel (a b : String × Site) : Prop :=
  specRankLe a.2 b.2

instance : DecidableRel specRankLe := fun a b => by
  unfold specRankLe; infer_instance

instance : DecidableRel specRankRel := fun a b => by
  unfold specRankRel; infer_instance

theorem orderedInsert_congr {α : Type} (r1 r2 : α → α → Prop)
    [DecidableRel r1] [DecidableRel r2] (a : α) (l : List α)
    (hiff : ∀ b ∈ l, r1 a b ↔ r2 a b) :
    List.orderedInsert r1 a l = List.orderedInsert r2 a l := by
  induction l with
  | nil => rfl
  | cons b bs ih =>
    rw [List.orderedInsert, List.orderedInsert]
    by_cases h : r1 a b
    · rw [if_pos h, if_pos ((hiff b (List.mem_cons_self b bs)).mp h)]
    · rw [if_neg h, if_neg (fun h2 => h ((hiff b (List.mem_cons_self b bs)).mpr h2)),
        ih fun c hc => hiff c (List.mem_cons_of_mem b hc)]

theorem insertionSort_congr {α : Type} (r1 r2 : α → α → Prop)
    [DecidableRel r1] [DecidableRel r2] (l : List α)
    (hiff : ∀ a ∈ l, ∀ b ∈ l, r1 a b ↔ r2 a b) :
    List.insertionSort r1 l = List.insertionSort r2 l := by
  induction l with
  | nil => rfl
  | cons x xs ih =>
    rw [List.insertionSort, List.insertionSort,
      ih fun a ha b hb => hiff a (List.mem_cons_of_mem x ha) b (List.mem_cons_of_mem x hb)]
    exact orderedInsert_congr r1 r2 x _ fun b hb =>
      hiff x (List.mem_cons_self x xs) b
        (List.mem_cons_of_mem x ((List.mem_insertionSort r2).mp hb))

/-- On records that both carry a `lastAccessedTime`, the source comparator
agrees with the spec's ranking order. -/
theorem rankRel_iff_specRankRel (a b : String × Site)
    (ha : a.2.lastAccessedTime ≠ none) (hb : b.2.lastAccessedTime ≠ none) :
    rankRel a b ↔ specRankRel a b := by
  obtain ⟨la, hla⟩ := Option.ne_none_iff_exists'.mp ha
  obtain ⟨lb, hlb⟩ := Option.ne_none_iff_exists'.mp hb
  unfold rankRel specRankRel specRankLe sortCountDescending
  rw [hla, hlb]
  simp only [jsLtOpt, Option.getD_some, decide_eq_true_eq]
  split_ifs <;> simp <;> omega

/-- C5 (amended) — Ranker order and truncation (source lines 35-51 and
96-97), restricted to inputs where every filtered candidate carries a
`lastAccessedTime`: the sorted list equals the stable sort by the spec's
order (count descending, ties by lastAccessedTime descending, remaining
ties in input order), it is sorted for that order, and the ranked pool is
its first 100 entries.  Without the restriction the comparator reads an
absent `lastAccessedTime` as JS `undefined`, whose comparisons are always
false, so such a record ties with every equal-count record instead of
comparing as 0 — see the counterexample. -/
theorem c5_ranker_order_amended (env : Env) (w : Option Nat × Option Nat)
    (hT : ∀ p ∈ filteredSites env w, p.2.lastAccessedTime ≠ none) :
    sortedSites env w = List.insertionSort specRankRel (filteredSites env w) ∧
    List.Sorted specRankRel (sortedSites env w) ∧
    truncatedSites env w =
      (List.insertionSort specRankRel (filteredSites env w)).take aboutNewTabMaxEntries := by
  have heq : sortedSites env w = List.insertionSort specRankRel (filteredSites env w) := by
    rw [sortedSites]
    exact insertionSort_congr rankRel specRankRel (filteredSites env w)
      fun a ha b hb => rankRel_iff_specRankRel a b (hT a ha) (hT b hb)
  refine ⟨heq, ?_, by rw [truncatedSites, heq]⟩
  rw [heq]
  haveI : IsTotal (String × Site) specRankRel :=
    ⟨fun a b => by unfold specRankRel specRankLe; omega⟩
  haveI : IsTrans (String × Site) specRankRel :=
    ⟨fun a b c h1 h2 => by
      unfold specRankRel specRankLe at h1 h2 ⊢
      omega⟩
  exact List.sorted_insertionSort specRankRel _

/-- Equal-count record without a `lastAccessedTime`, first in input order. -/
def siteNoTime : Site := { location := some "https://n.example/", count := some 1 }

/-- Equal-count record with a positive `lastAccessedTime`, second in input
order. -/
def siteLate : Site :=
  { location := some "https://l.example/", count := some 1, lastAccessedTime := some 5 }

/-- Environment whose two history records tie on count, one lacking the
access time. -/
def envTie : Env :=
  { history := [("kn", siteNoTime), ("kl", siteLate)], pinned := [], ignored := [],
    staticData := [], isSourceAboutUrl := fun _ => false, bookmarkedAt := fun _ => false,
    parseHost := idParse }

/-- C5 counterexample: with an absent `lastAccessedTime` in play, the
ranked pool differs from the spec-described sort — the comparator ties the
two records (JS comparisons against `undefined` are false) and stability
keeps the absent-time record first, while the spec's order (absent reads
as 0) puts the record with time 5 first. -/
theorem c5_counterexample :
    truncatedSites envTie (none, none) ≠
      (List.insertionSort specRankRel (filteredSites envTie (none, none))).take
        aboutNewTabMaxEntries := by
  decide

theorem c5_witness :
    sortedSites envNoPins (none, none) =
      List.insertionSort specRankRel (filteredSites envNoPins (none, none)) :=
  (c5_ranker_order_amended envNoPins (none, none) (by decide)).1

/-- C6 — evaluation of the comparator at the failing input (two records
with equal count, the left one without a `lastAccessedTime`, the right one
with time 5): `sortCountDescending` returns 0 (`eq`) because both JS `<`
comparisons against `undefined` are false, so the stable sort leaves the
absent-time record in front, whereas reading the absent field as 0 (the
spec's rule, and what every other read site of this file does via
`get(..., 0)` or `|| 0`) would order the record with time 5 first. -/
theorem c6_absent_time_ties :
    sortCountDescending siteNoTime siteLate = Ordering.eq ∧
    List.insertionSort rankRel [("kn", siteNoTime), ("kl", siteLate)] =
      [("kn", siteNoTime), ("kl", siteLate)] ∧
    List.insertionSort specRankRel [("kn", siteNoTime), ("kl", siteLate)] =
      [("kl", siteLate), ("kn", siteNoTime)] := by
  decide

/-! ### The pass key attached by the Ranker -/

/-- Environment with a single history record under identity key "k1". -/
def envK1 : Env :=
  { history := [("k1", siteA)], pinned := [], ignored := [], staticData := [],
    isSourceAboutUrl := fun _ => false, bookmarkedAt := fun _ => false, parseHost := idParse }

/-- The same environment with the record stored under identity key "k2". -/
def envK2 : Env := { envK1 with history := [("k2", siteA)] }

/-- C8 counterexample: the `key` attached during the ranking pass is
exactly the record's history identity key — the same record at the same
position 0 receives "k1" or "k2" according to its mapping key, so the
attached key is neither position-derived nor distinct from the record's
identity key. -/
theorem c8_counterexample :
    ((rankedSites envK1 (none, none)).map fun s => s.key) = [some "k1"] ∧
    ((rankedSites envK2 (none, none)).map fun s => s.key) = [some "k2"] := by
  decide

/-- C8 (amended) — the `key` attached during the ranking pass (source
lines 98-104) is the record's history-map identity key, re-attached onto
the record for the equality checks against pin keys later in the same
pass. -/
theorem c8_pass_key_amended (env : Env) (w : Option Nat × Option Nat) (i : Nat) (s : Site)
    (h : (rankedSites env w)[i]? = some s) :
    ∃ k r, (truncatedSites env w)[i]? = some (k, r) ∧ s.key = some k ∧
      (k, r) ∈ env.history := by
  rw [rankedSites, List.getElem?_map] at h
  cases ht : (truncatedSites env w)[i]? with
  | none =>
    rw [ht] at h
    cases h
  | some p =>
    rw [ht] at h
    simp only [Option.map_some'] at h
    have hs := Option.some_inj.mp h
    subst hs
    refine ⟨p.1, p.2, rfl, rfl, ?_⟩
    have h2 : p ∈ truncatedSites env w := List.mem_iff_getElem?.mpr ⟨i, ht⟩
    have h3 : p ∈ sortedSites env w := (List.take_sublist _ _).mem h2
    have h4 : p ∈ filteredSites env w :=
      ((List.perm_insertionSort rankRel _).mem_iff).mp h3
    exact (List.mem_filter.mp h4).1

/-- The annotated record the pipeline produces from `envK1`. -/
def siteA1 : Site := { siteA with bookmarked := false, key := some "k1" }

theorem c8_witness :
    ∃ k r, (truncatedSites envK1 (none, none))[0]? = some (k, r) ∧
      siteA1.key = some k ∧ (k, r) ∈ envK1.history :=
  c8_pass_key_amended envK1 (none, none) 0 siteA1 (by decide)

/-! ### Distinct keys in the grid -/

theorem rankedSites_keys (env : Env) (w : Option Nat × Option Nat) :
    ((rankedSites env w).map fun s => s.key) =
      (truncatedSites env w).map fun p => some p.1 := by
  rw [rankedSites, List.map_map]
  rfl

theorem truncated_fst_nodup (env : Env) (w : Option Nat × Option Nat)
    (hh : (env.history.map Prod.fst).Nodup) :
    ((truncatedSites env w).map Prod.fst).Nodup := by
  have h1 : ((filteredSites env w).map Prod.fst).Nodup :=
    ((List.filter_sublist _).map Prod.fst).nodup hh
  have h2 : ((sortedSites env w).map Prod.fst).Nodup :=
    (((List.perm_insertionSort rankRel _).map Prod.fst)).nodup_iff.mpr h1
  exact ((List.take_sublist _ _).map Prod.fst).nodup h2

theorem rankedSites_keys_nodup (env : Env) (w : Option Nat × Option Nat)
    (hh : (env.history.map Prod.fst).Nodup) :
    (((rankedSites env w)).map fun s => s.key).Nodup := by
  rw [rankedSites_keys]
  have : ((truncatedSites env w).map fun p => some p.1) =
      ((truncatedSites env w).map Prod.fst).map some := by
    rw [List.map_map]
    rfl
  rw [this]
  exact (truncated_fst_nodup env w hh).map (Option.some_injective String)

/-- Every deduplicated candidate carries its history key and is not
pinned. -/
theorem dedupedSites_key_shape (env : Env) (w : Option Nat × Option Nat) (s : Site)
    (hs : s ∈ dedupedSites env w) :
    ∃ k r, s.key = some k ∧ (k, r) ∈ env.history ∧
      ∀ p, some p ∈ env.pinned → p.key ≠ some k := by
  have hs' : s ∈ rankedSites env w :=
    (removeDuplicateDomainsAux_sublist env.parseHost [] _).mem hs
  obtain ⟨k, r, rfl, hmem⟩ := rankedSites_shape env w s hs'
  have hf := (siteFilter_eq_true_iff env w k r).mp (List.mem_filter.mp hmem).2
  exact ⟨k, r, rfl, (List.mem_filter.mp hmem).1, hf.2.1⟩

/-- Every processed catalog entry carries its catalog record's key and is
not pinned. -/
theorem preDefinedSites_key_shape (env : Env) (s : Site) (hs : s ∈ preDefinedSites env) :
    ∃ s0, s0 ∈ env.staticData ∧ s.key = s0.key ∧
      ∀ p, some p ∈ env.pinned → p.key ≠ s0.key := by
  rw [preDefinedSites] at hs
  obtain ⟨s0, hs0, rfl⟩ := List.mem_map.mp hs
  have hmf := List.mem_filter.mp hs0
  have hpin : isPinned env.pinned s0.key = false := by
    have hcond := hmf.2
    simp only [Bool.and_eq_true, Bool.not_eq_true'] at hcond
    exact hcond.1
  exact ⟨s0, hmf.1, rfl, (isPinned_eq_false_iff _ _).mp hpin⟩

/-- No candidate handed to the Grid Composer has a pinned key (the filter
and the catalog filter both test `isPinned`). -/
theorem candidateSites_key_not_pinned (env : Env) (w : Option Nat × Option Nat) :
    ∀ s ∈ candidateSites env w, ∀ p, some p ∈ env.pinned → p.key ≠ s.key := by
  intro s hs p hp
  have main : s ∈ dedupedSites env w ∨ s ∈ preDefinedSites env := by
    rw [candidateSites] at hs
    by_cases hlen : (dedupedSites env w).length < 18
    · rw [if_pos hlen] at hs
      exact List.mem_append.mp hs
    · rw [if_neg hlen] at hs
      exact Or.inl hs
  rcases main with hd | hpre
  · obtain ⟨k, r, hk, _, hnp⟩ := dedupedSites_key_shape env w s hd
    rw [hk]
    exact hnp p hp
  · obtain ⟨s0, _, hk, hnp⟩ := preDefinedSites_key_shape env s hpre
    rw [hk]
    exact hnp p hp

theorem dedupedSites_keys_nodup (env : Env) (w : Option Nat × Option Nat)
    (hh : (env.history.map Prod.fst).Nodup) :
    ((dedupedSites env w).map fun s => s.key).Nodup :=
  ((removeDuplicateDomainsAux_sublist env.parseHost [] _).map _).nodup
    (rankedSites_keys_nodup env w hh)

theorem preDefinedSites_keys_nodup (env : Env)
    (hc : (env.staticData.map fun s => s.key).Nodup) :
    ((preDefinedSites env).map fun s => s.key).Nodup := by
  have heq : ((preDefinedSites env).map fun s => s.key) =
      ((env.staticData.filter fun s =>
        !isPinned env.pinned s.key && !isIgnored env.ignored s.key).map fun s => s.key) := by
    rw [preDefinedSites, List.map_map]
    rfl
  rw [heq]
  exact ((List.filter_sublist _).map _).nodup hc

theorem candidateSites_keys_nodup (env : Env) (w : Option Nat × Option Nat)
    (hh : (env.history.map Prod.fst).Nodup)
    (hc : (env.staticData.map fun s => s.key).Nodup)
    (hdisj : ∀ s ∈ env.staticData, ∀ kr ∈ env.history, s.key ≠ some kr.1) :
    ((candidateSites env w).map fun s => s.key).Nodup := by
  rw [candidateSites]
  by_cases hlen : (dedupedSites env w).length < 18
  · rw [if_pos hlen, List.map_append]
    refine (dedupedSites_keys_nodup env w hh).append (preDefinedSites_keys_nodup env hc) ?_
    intro x hx1 hx2
    obtain ⟨s1, hs1, hk1⟩ := List.mem_map.mp hx1
    obtain ⟨s2, hs2, hk2⟩ := List.mem_map.mp hx2
    obtain ⟨k, r, hsk, hkr, _⟩ := dedupedSites_key_shape env w s1 hs1
    obtain ⟨s0, hs0, hs0k, _⟩ := preDefinedSites_key_shape env s2 hs2
    apply hdisj s0 hs0 (k, r) hkr
    rw [← hs0k, hk2, ← hk1, hsk]
  · rw [if_neg hlen]
    exact dedupedSites_keys_nodup env w hh

/-- The Grid Composer preserves key distinctness: with pairwise-distinct
candidate keys, pairwise-distinct pin keys, and no candidate carrying a
pin's key, the emitted slots have pairwise-distinct keys. -/
theorem composeGrid_keys_nodup (sites : List Site) (pins : List (Option Site))
    (hs : (sites.map fun s => s.key).Nodup)
    (hp : ((pins.filterMap id).map fun s => s.key).Nodup)
    (hdisj : ∀ s ∈ sites, ∀ p, some p ∈ pins → p.key ≠ s.key) :
    (((composeAux sites pins).1.filterMap id).map fun s => s.key).Nodup := by
  induction pins generalizing sites with
  | nil => simp [composeAux]
  | cons o rest ih =>
    cases o with
    | none =>
      have hp' : ((rest.filterMap id).map fun s => s.key).Nodup := hp
      cases sites with
      | nil =>
        show (((composeAux ([] : List Site) rest).1.filterMap id).map fun s => s.key).Nodup
        exact ih [] (by simp) hp' fun s hs' => (List.not_mem_nil s hs').elim
      | cons c cs =>
        have hcs : c.key ∉ (cs.map fun s => s.key) ∧ (cs.map fun s => s.key).Nodup :=
          List.nodup_cons.mp hs
        show (((some c :: (composeAux cs rest).1).filterMap id).map fun s => s.key).Nodup
        rw [show (some c :: (composeAux cs rest).1).filterMap id =
              c :: (composeAux cs rest).1.filterMap id from rfl, List.map_cons]
        refine List.nodup_cons.mpr ⟨?_, ?_⟩
        · intro hmem
          obtain ⟨x, hx, hkey⟩ := List.mem_map.mp hmem
          rcases composeGrid_filterMap_mem cs rest x hx with hxc | hxp
          · exact hcs.1 (hkey ▸ List.mem_map_of_mem (fun s => s.key) hxc)
          · exact hdisj c (List.mem_cons_self c cs) x (List.mem_cons_of_mem none hxp) hkey
        · refine ih cs hcs.2 hp' ?_
          intro s hs' p hp2
          exact hdisj s (List.mem_cons_of_mem c hs') p (List.mem_cons_of_mem none hp2)
    | some p =>
      have hp' : p.key ∉ ((rest.filterMap id).map fun s => s.key) ∧
          ((rest.filterMap id).map fun s => s.key).Nodup := List.nodup_cons.mp hp
      show (((some p :: (composeAux (sites.filter fun s => s.key != p.key) rest).1).filterMap
          id).map fun s => s.key).Nodup
      rw [show (some p :: (composeAux (sites.filter fun s => s.key != p.key) rest).1).filterMap
            id = p :: (composeAux (sites.filter fun s => s.key != p.key) rest).1.filterMap id
          from rfl, List.map_cons]
      refine List.nodup_cons.mpr ⟨?_, ?_⟩
      · intro hmem
        obtain ⟨x, hx, hkey⟩ := List.mem_map.mp hmem
        rcases composeGrid_filterMap_mem _ rest x hx with hxc | hxp
        · have hne := (List.mem_filter.mp hxc).2
          rw [bne_iff_ne] at hne
          exact hne hkey
        · have hxmem : x ∈ (rest.filterMap id : List Site) :=
            List.mem_filterMap.mpr ⟨some x, hxp, rfl⟩
          exact hp'.1 (hkey ▸ List.mem_map_of_mem (fun s => s.key) hxmem)
      · refine ih (sites.filter fun s => s.key != p.key) (((List.filter_sublist _).map _).nodup hs)
          hp'.2 ?_
        intro s hs' q hq
        exact hdisj s (List.mem_of_mem_filter hs') q (List.mem_cons_of_mem (some p) hq)

/-- A pinned entry used by the counterexample. -/
def pinDup : Site := { location := some "https://p.example/", key := some "kp" }

/-- Environment whose pin store holds the same pin in two slots. -/
def envDupPins : Env :=
  { history := [], pinned := [some pinDup, some pinDup], ignored := [], staticData := [],
    isSourceAboutUrl := fun _ => false, bookmarkedAt := fun _ => false, parseHost := idParse }

/-- C3 counterexample: nothing deduplicates the pinned entries against
each other, so a pin store holding the same key twice yields a grid with
two non-empty slots of equal key. -/
theorem c3_counterexample :
    ¬ List.Pairwise (fun a b : Site => a.key ≠ b.key) (topSiteGrid envDupPins (none, none)) := by
  decide

/-- C3 (amended) — No duplicate keys in the output (source lines 135-153),
provided the history is a genuine mapping (pairwise-distinct keys), the
static catalog's keys are pairwise distinct and none collides with a
history key, and the pinned entries' keys are pairwise distinct: then no
two emitted slots share a `key`.  The remaining ingredients are proved
from the code: candidates never carry a pinned key (both candidate paths
filter on `isPinned`), and a non-null pin removes every equal-key
candidate before later slots fill. -/
theorem c3_no_duplicate_keys_amended (env : Env) (w : Option Nat × Option Nat)
    (hh : (env.history.map Prod.fst).Nodup)
    (hc : (env.staticData.map fun s => s.key).Nodup)
    (hdisj : ∀ s ∈ env.staticData, ∀ kr ∈ env.history, s.key ≠ some kr.1)
    (hp : ((env.pinned.filterMap id).map fun s => s.key).Nodup) :
    ((topSiteGrid env w).map fun s => s.key).Nodup :=
  composeGrid_keys_nodup (candidateSites env w) env.pinned
    (candidateSites_keys_nodup env w hh hc hdisj) hp
    (candidateSites_key_not_pinned env w)

/-- Environment with one pin, one null slot and one ranked candidate. -/
def envPinned : Env :=
  { history := [("ka", siteA)], pinned := [some pinB, none], ignored := [], staticData := [],
    isSourceAboutUrl := fun _ => false, bookmarkedAt := fun _ => false, parseHost := idParse }

theorem c3_witness :
    ((topSiteGrid envPinned (none, none)).map fun s => s.key).Nodup :=
  c3_no_duplicate_keys_amended envPinned (none, none) (by decide) (by decide)
    (by decide) (by decide)

end TopSites
